import Mathlib

/-!
Verification of the mutating admission webhook in `webhook.go`
(`serveMutate`, `mutate`, `writeAdmissionError`, `escapeJSONPointer`).

The Go code is shallowly embedded: Go `map[string]string` values are
represented as association lists in the iteration order a run presents
(Go map iteration order is unspecified and varies between runs, so the
order is an explicit input of the model); a Go `nil` map versus a present
map is an `Option`; Go strings are Lean `String`s, manipulated through
their `data` character lists where the code does byte-level rewriting.
-/

namespace Webhook

/-- A Go `map[string]string`, as the association list a run's iteration
presents. Distinct keys (a hypothesis where a proof needs it) reflect
that a Go map never holds a key twice. -/
abbrev Labels := List (String × String)

/-- Go `strings.ReplaceAll` for a single-character pattern `old`:
every occurrence of `old` is rewritten to `new`, left to right. -/
def replace1 (old : Char) (new : List Char) : List Char → List Char
  | [] => []
  | c :: cs => (if c = old then new else [c]) ++ replace1 old new cs

/-- `escapeJSONPointer` (webhook.go:186-190): replace every `~` by `~0`,
then every `/` by `~1`, at character level. -/
def escapeChars (s : List Char) : List Char :=
  replace1 '/' ['~', '1'] (replace1 '~' ['~', '0'] s)

/-- `escapeJSONPointer` on Lean strings. -/
def escapeJSONPointer (s : String) : String :=
  ⟨escapeChars s.data⟩

/-- Modelled from the spec: RFC 6901 unescaping, first pass — replace
every occurrence of the two-character sequence `~1` by `/`, scanning
left to right without overlap (as `strings.ReplaceAll` would). The
repository has no unescape function; the spec's §4.3/§8 describe it. -/
def unrep1 : List Char → List Char
  | [] => []
  | [c] => [c]
  | c :: d :: cs => if c = '~' ∧ d = '1' then '/' :: unrep1 cs else c :: unrep1 (d :: cs)

/-- Modelled from the spec: RFC 6901 unescaping, second pass — replace
every occurrence of `~0` by `~`. -/
def unrep0 : List Char → List Char
  | [] => []
  | [c] => [c]
  | c :: d :: cs => if c = '~' ∧ d = '0' then '~' :: unrep0 cs else c :: unrep0 (d :: cs)

/-- Modelled from the spec: RFC 6901 unescaping in the order reverse to
escaping — `~1` back to `/` first, then `~0` back to `~`. -/
def unescapeChars (s : List Char) : List Char :=
  unrep0 (unrep1 s)

/-- RFC 6901 unescaping on Lean strings (modelled from the spec). -/
def unescapeJSONPointer (s : String) : String :=
  ⟨unescapeChars s.data⟩

/-- The combined effect of the two escape passes on one character. -/
def escChar (c : Char) : List Char :=
  if c = '~' then ['~', '0'] else if c = '/' then ['~', '1'] else [c]

/-- The `value` of a patch operation as the code emits it: a plain string
(webhook.go:141) or the empty mapping (webhook.go:127). -/
inductive PatchValue where
  | str (s : String)
  | emptyMap
deriving DecidableEq

/-- One JSON Patch operation, a `map` with keys `op`, `path`, `value` in
the code (webhook.go:124, 138). -/
structure PatchOp where
  op : String
  path : String
  value : PatchValue
deriving DecidableEq

/-- The Pod as the code reads it: only its labels matter
(`corev1.Pod`, field `pod.Labels`). `none` is a Go `nil` map — the
serialized Pod had no labels member at all. -/
structure Pod where
  labels : Option Labels
deriving DecidableEq

deriving instance DecidableEq for Except

/-- `admissionv1.AdmissionRequest` as the code reads it: `req.UID`,
`req.Kind.Kind`, and the outcome of the Pod unmarshal of `req.Object.Raw`
(webhook.go:92) — an error message or a Pod, determined by the raw bytes. -/
structure AdmissionRequest where
  uid : String
  kind : String
  podParse : Except String Pod
deriving DecidableEq

/-- `admissionv1.AdmissionResponse` as the code writes it: `UID`,
`Allowed`, `Result.Message`, `Patch` (the patch operation list; its JSON
serialization `json.Marshal(patches)` cannot fail on this finite concrete
data, so it is modelled by the list itself), `PatchType`. Go zero values
are the defaults. -/
structure AdmissionResponse where
  uid : String := ""
  allowed : Bool
  message : Option String := none
  patch : Option (List PatchOp) := none
  patchType : Option String := none
deriving DecidableEq

/-- The outer `AdmissionReview` envelope written back
(webhook.go:64-70, 172-178). -/
structure AdmissionReviewOut where
  apiVersion : String
  kind : String
  response : AdmissionResponse
deriving DecidableEq

/-- The marker check of one key (webhook.go:102): the Go test
`strings.HasPrefix(key, "rollouts-pod-template-hash")`. -/
def startsWithMark (k : String) : Bool :=
  List.isPrefixOf "rollouts-pod-template-hash".data k.data

/-- The predicate loop (webhook.go:100-106): `found` is true iff some key
of the Pod's label map starts with the marker. Iterating a `nil` map runs
zero times, like iterating an empty one. -/
def shouldMutate (labels : Option Labels) : Bool :=
  (labels.getD []).any (fun kv => startsWithMark kv.1)

/-- The leading operation emitted when the Pod has no labels map
(webhook.go:124-128). -/
def initLabelsOp : PatchOp :=
  { op := "add", path := "/metadata/labels", value := PatchValue.emptyMap }

/-- The path of a child operation (webhook.go:140). -/
def labelPath (k : String) : String :=
  "/metadata/labels/" ++ escapeJSONPointer k

/-- One loop iteration of the builder (webhook.go:131-143): `replace`
when the Pod's label map is non-nil and holds the key, else `add`. -/
def childOp (existing : Option Labels) (kv : String × String) : PatchOp :=
  { op := if (List.lookup kv.1 (existing.getD [])).isSome then "replace" else "add"
    path := labelPath kv.1
    value := PatchValue.str kv.2 }

/-- The patch construction of webhook.go:122-143: the optional leading
`add /metadata/labels` operation, then one operation per desired label in
the presented iteration order. -/
def buildPatch (existing : Option Labels) (desired : Labels) : List PatchOp :=
  (match existing with
   | none => [initLabelsOp]
   | some _ => []) ++ desired.map (childOp existing)

/-- `mutate` (webhook.go:83-159): the request's fields and the result of
the `getLabelsFromAPI` call are the inputs; the `json.Marshal(patches)`
failure branch (webhook.go:146-151) cannot fire on this finite concrete
data and is modelled by the always-successful serialization. -/
def mutate (req : AdmissionRequest) (fetched : Except String Labels) :
    AdmissionResponse :=
  if req.kind ≠ "Pod" then { allowed := true }
  else
    match req.podParse with
    | Except.error e =>
        { allowed := false, message := some ("Could not unmarshal Pod: " ++ e) }
    | Except.ok pod =>
        if shouldMutate pod.labels = false then { allowed := true }
        else
          match fetched with
          | Except.error e =>
              { allowed := false
                message := some ("Error retrieving labels from API: " ++ e) }
          | Except.ok labels =>
              { allowed := true
                patch := some (buildPatch pod.labels labels)
                patchType := some "JSONPatch" }

/-- The mocked label source (webhook.go:193-195). -/
def getLabelsFromAPI : Except String Labels :=
  Except.ok [("team", "microservices")]

/-- What `io.ReadAll` plus the review unmarshal (webhook.go:46-57) can
leave the handler with: an empty body, a body that is not parsable as an
`AdmissionReview` (which may still textually contain a UID — carried here
because the code makes no attempt to recover it), or a parsed review
whose `Request` field is either `nil` or present. -/
inductive Body where
  | empty
  | malformed (recoverableUid : Option String)
  | parsed (request : Option AdmissionRequest)
deriving DecidableEq

/-- The observable outcome of one request: an HTTP reply carrying an
`AdmissionReview`, or a Go runtime panic (nil-pointer dereference), in
which case no response body is written. -/
inductive ServeOutcome where
  | reply (status : Nat) (review : AdmissionReviewOut)
  | panicked
deriving DecidableEq

/-- The response `writeAdmissionError` builds (webhook.go:165-170):
`Allowed=false`, the message, and zero values everywhere else — in
particular the UID is left empty. -/
def errorResponse (message : String) : AdmissionResponse :=
  { allowed := false, message := some message }

/-- `writeAdmissionError` (webhook.go:162-183). -/
def writeAdmissionError (code : Nat) (message : String) : ServeOutcome :=
  ServeOutcome.reply code
    { apiVersion := "admission.k8s.io/v1"
      kind := "AdmissionReview"
      response := errorResponse message }

/-- `serveMutate` (webhook.go:45-80). A parsed review with a `nil`
`Request` panics: `mutate` dereferences it at `req.Kind.Kind`
(webhook.go:87) and `serveMutate` itself at `reviewReq.Request.UID`
(webhook.go:61), so no response is written. -/
def serveMutate (body : Body) (fetched : Except String Labels) : ServeOutcome :=
  match body with
  | Body.empty => writeAdmissionError 400 "Empty request body"
  | Body.malformed _ => writeAdmissionError 400 "Could not unmarshal AdmissionReview"
  | Body.parsed none => ServeOutcome.panicked
  | Body.parsed (some req) =>
      ServeOutcome.reply 200
        { apiVersion := "admission.k8s.io/v1"
          kind := "AdmissionReview"
          response := { mutate req fetched with uid := req.uid } }

/-- The UID of the written response, when one is written. -/
def outcomeUid : ServeOutcome → Option String
  | ServeOutcome.reply _ rv => some rv.response.uid
  | ServeOutcome.panicked => none

/-- Insert-or-replace of one member of a JSON object (RFC 6902 `add` on
an object: replace the member if present, append it otherwise). -/
def setKey : Labels → String → String → Labels
  | [], k, v => [(k, v)]
  | (k₀, v₀) :: m, k, v =>
      if k₀ = k then (k, v) :: m else (k₀, v₀) :: setKey m k v

/-- Recover the label key a child path addresses: strip the
`/metadata/labels/` head and unescape the remaining segment
(RFC 6901). `none` when the path is not below `/metadata/labels/`. -/
def pathKey (p : String) : Option String :=
  if p.data.take 17 = "/metadata/labels/".data
  then some (unescapeJSONPointer ⟨p.data.drop 17⟩)
  else none

/-- Modelled from the spec: RFC 6902 application of one operation to the
labels node of the Pod document (the document is represented by its
labels member: `none` when absent). `add` at `/metadata/labels` creates
or replaces the whole member; `add` at a child path inserts or replaces
the member and needs the parent present; `replace` at a child path needs
the member present. Shapes the Patch Builder cannot emit are rejected
(`none`). -/
def applyOp (doc : Option Labels) (p : PatchOp) : Option (Option Labels) :=
  if p.path = "/metadata/labels" then
    if p.op = "add" ∧ p.value = PatchValue.emptyMap then some (some []) else none
  else
    match pathKey p.path, p.value, doc with
    | some k, PatchValue.str v, some m =>
        if p.op = "add" then some (some (setKey m k v))
        else if p.op = "replace" then
          if (List.lookup k m).isSome then some (some (setKey m k v)) else none
        else none
    | _, _, _ => none

/-- Apply a patch sequence in order; `none` as soon as one operation
fails. -/
def applyPatch : Option Labels → List PatchOp → Option (Option Labels)
  | doc, [] => some doc
  | doc, p :: ps =>
      match applyOp doc p with
      | none => none
      | some d => applyPatch d ps

/-- The net effect of the child operations: fold `setKey` over the
desired pairs in order. -/
def mergeFold (m : Labels) (desired : Labels) : Labels :=
  desired.foldl (fun acc kv => setKey acc kv.1 kv.2) m

/-! ## Lemmas about the escaping -/

lemma replace1_append (old : Char) (new : List Char) (a b : List Char) :
    replace1 old new (a ++ b) = replace1 old new a ++ replace1 old new b := by
  induction a with
  | nil => rfl
  | cons c cs ih => simp [replace1, ih]

lemma escapeChars_nil : escapeChars [] = [] := rfl

lemma escapeChars_cons (c : Char) (s : List Char) :
    escapeChars (c :: s) = escChar c ++ escapeChars s := by
  unfold escapeChars escChar
  by_cases h0 : c = '~'
  · subst h0
    simp [replace1, replace1_append]
  · by_cases h1 : c = '/'
    · subst h1
      simp [replace1, replace1_append, h0]
    · simp [replace1, replace1_append, h0, h1]

lemma unrep1_cons_ne (c : Char) (s : List Char) (h : c ≠ '~') :
    unrep1 (c :: s) = c :: unrep1 s := by
  cases s with
  | nil => rfl
  | cons d cs => simp [unrep1, h]

lemma unrep0_cons_ne (c : Char) (s : List Char) (h : c ≠ '~') :
    unrep0 (c :: s) = c :: unrep0 s := by
  cases s with
  | nil => rfl
  | cons d cs => simp [unrep0, h]

/-- After the first unescape pass, an escaped string has its slashes back
and its tildes still escaped. -/
lemma unrep1_escapeChars (s : List Char) :
    unrep1 (escapeChars s) = replace1 '~' ['~', '0'] s := by
  induction s with
  | nil => rfl
  | cons c cs ih =>
    rw [escapeChars_cons]
    unfold escChar
    by_cases h0 : c = '~'
    · subst h0
      have h1 : unrep1 ('~' :: '0' :: escapeChars cs) = '~' :: unrep1 ('0' :: escapeChars cs) := by
        simp [unrep1]
      have h2 : unrep1 ('0' :: escapeChars cs) = '0' :: unrep1 (escapeChars cs) :=
        unrep1_cons_ne _ _ (by decide)
      simp [h1, h2, ih, replace1]
    · by_cases h1 : c = '/'
      · subst h1
        have : unrep1 ('~' :: '1' :: escapeChars cs) = '/' :: unrep1 (escapeChars cs) := by
          simp [unrep1]
        simp [h0, this, ih, replace1]
      · simp [h0, h1, unrep1_cons_ne c _ h0, ih, replace1]

/-- The second unescape pass undoes the tilde escaping. -/
lemma unrep0_replace1 (s : List Char) :
    unrep0 (replace1 '~' ['~', '0'] s) = s := by
  induction s with
  | nil => rfl
  | cons c cs ih =>
    by_cases h0 : c = '~'
    · subst h0
      have : unrep0 ('~' :: '0' :: replace1 '~' ['~', '0'] cs)
          = '~' :: unrep0 (replace1 '~' ['~', '0'] cs) := by
        simp [unrep0]
      simp [replace1, this, ih]
    · simp [replace1, h0, unrep0_cons_ne c _ h0, ih]

lemma unescapeChars_escapeChars (s : List Char) :
    unescapeChars (escapeChars s) = s := by
  rw [unescapeChars, unrep1_escapeChars, unrep0_replace1]

lemma unescape_escape (s : String) :
    unescapeJSONPointer (escapeJSONPointer s) = s := by
  show (⟨unescapeChars (escapeChars s.data)⟩ : String) = s
  rw [unescapeChars_escapeChars]

lemma escape_inj {a b : String}
    (h : escapeJSONPointer a = escapeJSONPointer b) : a = b := by
  have := congrArg unescapeJSONPointer h
  rwa [unescape_escape, unescape_escape] at this

/-! ## Lemmas about paths and patch application -/

lemma labelPath_data (k : String) :
    (labelPath k).data = "/metadata/labels/".data ++ (escapeJSONPointer k).data := by
  simp [labelPath]

lemma labelPath_ne_root (k : String) : labelPath k ≠ "/metadata/labels" := by
  intro h
  have hlen := congrArg (fun s => s.data.length) h
  simp [labelPath_data] at hlen

lemma pathKey_labelPath (k : String) : pathKey (labelPath k) = some k := by
  have h17 : ("/metadata/labels/".data).length = 17 := rfl
  rw [pathKey, labelPath_data, ← h17, List.take_left, if_pos rfl, List.drop_left]
  show some (unescapeJSONPointer (escapeJSONPointer k)) = some k
  rw [unescape_escape]

lemma labelPath_inj {a b : String} (h : labelPath a = labelPath b) : a = b := by
  have hd := congrArg String.data h
  rw [labelPath_data, labelPath_data] at hd
  exact escape_inj (String.ext (List.append_cancel_left hd))

lemma lookup_setKey (m : Labels) (k v k' : String) :
    List.lookup k' (setKey m k v) = if k' = k then some v else List.lookup k' m := by
  induction m with
  | nil =>
      by_cases h : k' = k
      · have hb : (k' == k) = true := by simp [h]
        simp [setKey, List.lookup_cons, hb, h]
      · have hb : (k' == k) = false := by simp [h]
        simp [setKey, List.lookup_cons, hb, h]
  | cons kv₀ m ih =>
      obtain ⟨k₀, v₀⟩ := kv₀
      by_cases h₀ : k₀ = k
      · subst h₀
        by_cases h : k' = k₀
        · have hb : (k' == k₀) = true := by simp [h]
          simp [setKey, List.lookup_cons, hb, h]
        · have hb : (k' == k₀) = false := by simp [h]
          simp [setKey, List.lookup_cons, hb, h]
      · by_cases h : k' = k₀
        · subst h
          have hk : ¬ k' = k := fun hx => h₀ hx
          have hb : (k' == k') = true := by simp
          simp [setKey, h₀, List.lookup_cons, hb, hk]
        · have hb : (k' == k₀) = false := by simp [h]
          simp [setKey, h₀, List.lookup_cons, hb, ih]

lemma setKey_self (m : Labels) (k v : String)
    (h : List.lookup k m = some v) : setKey m k v = m := by
  induction m with
  | nil => simp [List.lookup_nil] at h
  | cons kv₀ m ih =>
      obtain ⟨k₀, v₀⟩ := kv₀
      by_cases h₀ : k₀ = k
      · subst h₀
        rw [List.lookup_cons] at h
        simp at h
        simp [setKey, h]
      · rw [List.lookup_cons] at h
        have hne : (k == k₀) = false := by
          simp [Ne.symm h₀]
        rw [hne] at h
        simp [setKey, h₀, ih h]

lemma lookup_eq_none_of_not_mem_keys {m : Labels} {k : String}
    (h : k ∉ m.map Prod.fst) : List.lookup k m = none := by
  induction m with
  | nil => rfl
  | cons kv₀ m ih =>
      obtain ⟨k₀, v₀⟩ := kv₀
      simp only [List.map_cons, List.mem_cons] at h
      push_neg at h
      rw [List.lookup_cons]
      have : (k == k₀) = false := by simp [h.1]
      rw [this]
      exact ih h.2

lemma lookup_of_mem_nodup {m : Labels} {kv : String × String}
    (hnd : (m.map Prod.fst).Nodup) (hmem : kv ∈ m) :
    List.lookup kv.1 m = some kv.2 := by
  induction m with
  | nil => simp at hmem
  | cons kv₀ m ih =>
      obtain ⟨k₀, v₀⟩ := kv₀
      simp only [List.map_cons, List.nodup_cons] at hnd
      rcases List.mem_cons.mp hmem with h | h
      · subst h
        simp [List.lookup_cons]
      · have hk : kv.1 ≠ k₀ := by
          intro he
          exact hnd.1 (he ▸ List.mem_map_of_mem Prod.fst h)
        rw [List.lookup_cons]
        have : (kv.1 == k₀) = false := by simp [hk]
        rw [this]
        exact ih hnd.2 h

lemma lookup_mergeFold (desired : Labels)
    (hnd : (desired.map Prod.fst).Nodup) :
    ∀ (m : Labels) (k : String),
      List.lookup k (mergeFold m desired) =
        (List.lookup k desired <|> List.lookup k m) := by
  induction desired with
  | nil => intro m k; simp [mergeFold]
  | cons kv₀ rest ih =>
      intro m k
      obtain ⟨k₀, v₀⟩ := kv₀
      simp only [List.map_cons, List.nodup_cons] at hnd
      have step : mergeFold m ((k₀, v₀) :: rest) = mergeFold (setKey m k₀ v₀) rest := rfl
      rw [step, ih hnd.2, List.lookup_cons, lookup_setKey]
      by_cases h : k = k₀
      · subst h
        have : List.lookup k rest = none :=
          lookup_eq_none_of_not_mem_keys hnd.1
        simp [this]
      · have : (k == k₀) = false := by simp [h]
        simp [this, h]

lemma mergeFold_self (final desired : Labels)
    (h : ∀ kv ∈ desired, List.lookup kv.1 final = some kv.2) :
    mergeFold final desired = final := by
  induction desired with
  | nil => rfl
  | cons kv rest ih =>
      have step : mergeFold final (kv :: rest) = mergeFold (setKey final kv.1 kv.2) rest := rfl
      rw [step, setKey_self final kv.1 kv.2 (h kv (List.mem_cons_self kv rest))]
      exact ih (fun kv' hm => h kv' (List.mem_cons_of_mem kv hm))

lemma applyOp_initLabelsOp (doc : Option Labels) :
    applyOp doc initLabelsOp = some (some []) := by
  simp [applyOp, initLabelsOp]

lemma applyOp_childOp (existing : Option Labels) (kv : String × String) (m : Labels)
    (h : (List.lookup kv.1 (existing.getD [])).isSome = true →
         (List.lookup kv.1 m).isSome = true) :
    applyOp (some m) (childOp existing kv) = some (some (setKey m kv.1 kv.2)) := by
  unfold applyOp childOp
  simp only
  rw [if_neg (labelPath_ne_root kv.1)]
  rw [pathKey_labelPath]
  cases hc : (List.lookup kv.1 (existing.getD [])).isSome with
  | false => simp [hc]
  | true =>
      have hm := h hc
      simp [hc, hm]

lemma applyPatch_children (existing : Option Labels) :
    ∀ (desired : Labels) (m : Labels),
      (∀ kv ∈ desired,
        (List.lookup kv.1 (existing.getD [])).isSome = true →
        (List.lookup kv.1 m).isSome = true) →
      applyPatch (some m) (desired.map (childOp existing)) =
        some (some (mergeFold m desired)) := by
  intro desired
  induction desired with
  | nil => intro m _; rfl
  | cons kv rest ih =>
      intro m h
      have hop := applyOp_childOp existing kv m (h kv (List.mem_cons_self kv rest))
      simp only [List.map_cons, applyPatch, hop]
      have hrest : ∀ kv' ∈ rest,
          (List.lookup kv'.1 (existing.getD [])).isSome = true →
          (List.lookup kv'.1 (setKey m kv.1 kv.2)).isSome = true := by
        intro kv' hm hex
        rw [lookup_setKey]
        by_cases he : kv'.1 = kv.1
        · simp [he]
        · simp only [if_neg he]
          exact h kv' (List.mem_cons_of_mem kv hm) hex
      rw [ih (setKey m kv.1 kv.2) hrest]
      rfl

/-- In a list with distinct keys, exactly one pair carries the key of a
member pair. -/
lemma countP_key_one {l : Labels} {kv : String × String}
    (hnd : (l.map Prod.fst).Nodup) (hkv : kv ∈ l) :
    l.countP (fun x => x.1 = kv.1) = 1 := by
  induction l with
  | nil => simp at hkv
  | cons a rest ih =>
      simp only [List.map_cons, List.nodup_cons] at hnd
      rcases List.mem_cons.mp hkv with h | h
      · subst h
        rw [List.countP_cons_of_pos _ _ (by simp)]
        have hzero : rest.countP (fun x => x.1 = kv.1) = 0 := by
          rw [List.countP_eq_zero]
          intro b hb
          simp only [decide_eq_true_eq]
          intro he
          exact hnd.1 (he ▸ List.mem_map_of_mem Prod.fst hb)
        simp [hzero]
      · have hne : a.1 ≠ kv.1 := by
          intro he
          exact hnd.1 (he ▸ List.mem_map_of_mem Prod.fst h)
        rw [List.countP_cons_of_neg _ _ (by simp [hne])]
        exact ih hnd.2 h

/-- Two members of a distinct-key list with the same key are the same
pair. -/
lemma mem_nodup_eq_of_key {l : Labels} {a b : String × String}
    (hnd : (l.map Prod.fst).Nodup) (ha : a ∈ l) (hb : b ∈ l)
    (hk : a.1 = b.1) : a = b := by
  have h1 := lookup_of_mem_nodup hnd ha
  have h2 := lookup_of_mem_nodup hnd hb
  rw [hk] at h1
  rw [h1] at h2
  obtain ⟨a1, a2⟩ := a
  obtain ⟨b1, b2⟩ := b
  simp only at hk
  simp only [Option.some.injEq] at h2
  simp [hk, h2]

/-- A child operation is never the leading add-empty-labels operation:
their values differ. -/
lemma childOp_ne_initLabelsOp (existing : Option Labels) (kv : String × String) :
    childOp existing kv ≠ initLabelsOp := by
  intro h
  have := congrArg PatchOp.value h
  simp [childOp, initLabelsOp] at this

/-! ## Claims -/

/-- C1 is refuted at this input: a malformed body from which the UID
`abc` is still recoverable is answered by `writeAdmissionError`, whose
response carries the empty UID — not `abc`. -/
theorem C1_uid_counterexample :
    outcomeUid (serveMutate (Body.malformed (some "abc")) (Except.ok [])) = some "" ∧
    ("" : String) ≠ "abc" := by
  exact ⟨rfl, by decide⟩

/-- C1 (amended): whenever the body parses as an AdmissionReview whose
request object is present, the response UID equals the request UID; on
malformed bodies the error response carries the empty UID, even when a
UID is recoverable from the body. -/
theorem C1_uid_echo (req : AdmissionRequest) (fetched : Except String Labels) :
    outcomeUid (serveMutate (Body.parsed (some req)) fetched) = some req.uid := rfl

/-- C2: the code violates the claim — a non-empty body that parses as an
AdmissionReview with no request object (for example, the JSON text of a
bare empty object) makes the handler panic with a nil-pointer
dereference at webhook.go:87 and webhook.go:61 instead of producing a
structurally valid response. -/
theorem C2_nil_request_panics :
    serveMutate (Body.parsed none) (Except.ok []) = ServeOutcome.panicked := rfl

/-- C3: applying the built patch in order to the original labels node
succeeds and yields existing merged with desired, desired winning on key
conflicts; applying the same patch a second time, to the result, yields
the same final mapping. -/
theorem C3_patch_merge (existing : Option Labels) (desired : Labels)
    (hnd : (desired.map Prod.fst).Nodup) :
    ∃ final : Labels,
      applyPatch existing (buildPatch existing desired) = some (some final) ∧
      (∀ k : String,
        List.lookup k final =
          (List.lookup k desired <|> List.lookup k (existing.getD []))) ∧
      applyPatch (some final) (buildPatch existing desired) = some (some final) := by
  cases existing with
  | none =>
      refine ⟨mergeFold [] desired, ?_, ?_, ?_⟩
      · show applyPatch none (initLabelsOp :: desired.map (childOp none)) = _
        simp only [applyPatch, applyOp_initLabelsOp]
        exact applyPatch_children none desired []
          (by intro kv _ hex; simp at hex)
      · intro k
        exact lookup_mergeFold desired hnd [] k
      · show applyPatch (some (mergeFold [] desired))
            (initLabelsOp :: desired.map (childOp none)) = _
        simp only [applyPatch, applyOp_initLabelsOp]
        exact applyPatch_children none desired []
          (by intro kv _ hex; simp at hex)
  | some m =>
      have hfin : ∀ kv ∈ desired, List.lookup kv.1 (mergeFold m desired) = some kv.2 := by
        intro kv hkv
        rw [lookup_mergeFold desired hnd m kv.1, lookup_of_mem_nodup hnd hkv]
        rfl
      refine ⟨mergeFold m desired, ?_, ?_, ?_⟩
      · exact applyPatch_children (some m) desired m (fun kv _ hex => hex)
      · intro k
        exact lookup_mergeFold desired hnd m k
      · have hcond : ∀ kv ∈ desired,
            (List.lookup kv.1 ((some m : Option Labels).getD [])).isSome = true →
            (List.lookup kv.1 (mergeFold m desired)).isSome = true := by
          intro kv hkv _
          rw [hfin kv hkv]
          rfl
        show applyPatch (some (mergeFold m desired)) (desired.map (childOp (some m))) = _
        rw [applyPatch_children (some m) desired (mergeFold m desired) hcond,
          mergeFold_self _ _ hfin]

/-- C3 witness at a concrete input: existing labels present with a
conflicting `team` value, one desired label. -/
theorem C3_patch_merge_w :
    ∃ final : Labels,
      applyPatch (some [("team", "old"), ("app", "x")])
          (buildPatch (some [("team", "old"), ("app", "x")])
            [("team", "microservices")]) = some (some final) ∧
      (∀ k : String,
        List.lookup k final =
          (List.lookup k [("team", "microservices")] <|>
            List.lookup k ((some [("team", "old"), ("app", "x")] : Option Labels).getD []))) ∧
      applyPatch (some final)
          (buildPatch (some [("team", "old"), ("app", "x")])
            [("team", "microservices")]) = some (some final) :=
  C3_patch_merge (some [("team", "old"), ("app", "x")]) [("team", "microservices")]
    (by decide)

/-- C4: the predicate is true iff some label key begins with the literal
marker `rollouts-pod-template-hash`; an absent or empty mapping gives
false; and a Pod whose predicate is false is allowed with no patch, for
every label-source result. -/
theorem C4_admission_predicate (labels : Option Labels) (pod : Pod) (uid : String)
    (fetched : Except String Labels) (h : shouldMutate pod.labels = false) :
    (shouldMutate labels = true ↔
      ∃ kv ∈ labels.getD [], "rollouts-pod-template-hash".data <+: kv.1.data) ∧
    shouldMutate none = false ∧
    shouldMutate (some []) = false ∧
    mutate { uid := uid, kind := "Pod", podParse := Except.ok pod } fetched
      = { allowed := true } := by
  refine ⟨?_, rfl, rfl, ?_⟩
  · simp [shouldMutate, startsWithMark, List.any_eq_true]
  · simp [mutate, h]

/-- C4 witness at a concrete input: a Pod with an unrelated label. -/
theorem C4_admission_predicate_w :
    mutate { uid := "u", kind := "Pod",
             podParse := Except.ok { labels := some [("app", "x")] } }
        (Except.ok [("team", "microservices")]) = { allowed := true } :=
  (C4_admission_predicate none { labels := some [("app", "x")] } "u"
    (Except.ok [("team", "microservices")]) (by decide)).2.2.2

/-- C5 is refuted: the presented iteration order of the desired map is an
input of the build (Go chooses it per run), and two orders of the same
two-label map yield different operation sequences. -/
theorem C5_order_counterexample :
    buildPatch (some []) [("a", "1"), ("b", "2")]
      ≠ buildPatch (some []) [("b", "2"), ("a", "1")] ∧
    ([("a", "1"), ("b", "2")] : Labels).Perm [("b", "2"), ("a", "1")] := by
  constructor
  · decide
  · decide

/-- C5 (amended): patch construction is a pure function of the existing
labels and the presented iteration order, and any two iteration orders of
the same desired map yield operation sequences that are permutations of
each other; the sequences need not be identical across runs. -/
theorem C5_order_determinism (existing : Option Labels) (d₁ d₂ : Labels)
    (h : d₁.Perm d₂) :
    (buildPatch existing d₁).Perm (buildPatch existing d₂) := by
  unfold buildPatch
  exact List.Perm.append_left _ (h.map (childOp existing))

/-- C5 witness at a concrete input: the two presentation orders of the
counterexample. -/
theorem C5_order_determinism_w :
    (buildPatch (some []) [("a", "1"), ("b", "2")]).Perm
      (buildPatch (some []) [("b", "2"), ("a", "1")]) :=
  C5_order_determinism (some []) [("a", "1"), ("b", "2")] [("b", "2"), ("a", "1")]
    (by decide)

/-- C6: exactly when the labels mapping is absent does the patch begin
with the single add-empty-labels operation, which then occurs exactly
once; with the mapping present — even empty — no such operation is
emitted at all. -/
theorem C6_init_op (desired present : Labels) :
    (buildPatch none desired).head? = some initLabelsOp ∧
    (buildPatch none desired).countP (fun p => p = initLabelsOp) = 1 ∧
    (buildPatch (some present) desired).countP (fun p => p = initLabelsOp) = 0 := by
  have hmap : ∀ (ex : Option Labels),
      (desired.map (childOp ex)).countP (fun p => p = initLabelsOp) = 0 := by
    intro ex
    rw [List.countP_eq_zero]
    intro a ha
    obtain ⟨kv, _, rfl⟩ := List.mem_map.mp ha
    simpa using childOp_ne_initLabelsOp ex kv
  refine ⟨rfl, ?_, ?_⟩
  · show (initLabelsOp :: desired.map (childOp none)).countP (fun p => p = initLabelsOp) = 1
    rw [List.countP_cons_of_pos _ _ (by simp), hmap none]
  · show (desired.map (childOp (some present))).countP (fun p => p = initLabelsOp) = 0
    exact hmap (some present)

/-- C7: per desired pair, the patch holds exactly one operation at that
key's path; that operation is a replace iff the key is in the original
existing mapping (add otherwise) and carries the desired value; and every
operation is the leading add-empty-labels operation or targets a desired
key. -/
theorem C7_child_operations (existing : Option Labels) (desired : Labels)
    (hnd : (desired.map Prod.fst).Nodup) :
    (∀ kv ∈ desired,
      (buildPatch existing desired).countP (fun p => p.path = labelPath kv.1) = 1) ∧
    (∀ kv ∈ desired, ∀ p ∈ buildPatch existing desired,
      p.path = labelPath kv.1 →
        p.op = (if (List.lookup kv.1 (existing.getD [])).isSome then "replace" else "add") ∧
        p.value = PatchValue.str kv.2) ∧
    (∀ p ∈ buildPatch existing desired,
      p = initLabelsOp ∨ ∃ kv ∈ desired, p.path = labelPath kv.1) := by
  have hpre : ∀ (k : String),
      ((match existing with
        | none => [initLabelsOp]
        | some _ => []) : List PatchOp).countP (fun p => p.path = labelPath k) = 0 := by
    intro k
    cases existing with
    | none =>
        have hne : ("/metadata/labels" : String) ≠ labelPath k := (labelPath_ne_root k).symm
        simp [initLabelsOp, hne]
    | some m => rfl
  refine ⟨?_, ?_, ?_⟩
  · intro kv hkv
    unfold buildPatch
    rw [List.countP_append, hpre kv.1, List.countP_map]
    have hc : ∀ x ∈ desired,
        (((fun p => decide (p.path = labelPath kv.1)) ∘ childOp existing) x = true) ↔
          (decide (x.1 = kv.1) = true) := by
      intro x _
      simp only [Function.comp_apply, childOp, decide_eq_true_eq]
      exact ⟨fun he => labelPath_inj he, fun he => by rw [he]⟩
    rw [List.countP_congr hc, countP_key_one hnd hkv]
  · intro kv hkv p hp hpath
    unfold buildPatch at hp
    rcases List.mem_append.mp hp with hp | hp
    · have hpi : p = initLabelsOp := by
        cases existing with
        | none => simpa using hp
        | some m => simp at hp
      rw [hpi] at hpath
      exact absurd hpath.symm (labelPath_ne_root kv.1)
    · obtain ⟨x, hx, rfl⟩ := List.mem_map.mp hp
      have hkx : x.1 = kv.1 := labelPath_inj hpath
      have hxkv : x = kv := mem_nodup_eq_of_key hnd hx hkv hkx
      subst hxkv
      exact ⟨rfl, rfl⟩
  · intro p hp
    unfold buildPatch at hp
    rcases List.mem_append.mp hp with hp | hp
    · left
      cases existing with
      | none => simpa using hp
      | some m => simp at hp
    · right
      obtain ⟨x, hx, rfl⟩ := List.mem_map.mp hp
      exact ⟨x, hx, rfl⟩

/-- C7 witness at a concrete input: one desired label over a present,
empty existing mapping. -/
theorem C7_child_operations_w :
    (buildPatch (some []) [("team", "microservices")]).countP
      (fun p => p.path = labelPath ("team", "microservices").1) = 1 :=
  (C7_child_operations (some []) [("team", "microservices")] (by decide)).1
    ("team", "microservices") (by decide)

/-- C8: escaping replaces every `~` by `~0` first and every `/` by `~1`
second; on the key `a/b~c` the emitted segment is `a~1b~0c`; unescaping
in the reverse order recovers the original key for every input string. -/
theorem C8_escape_roundtrip (s : String) :
    unescapeJSONPointer (escapeJSONPointer s) = s ∧
    escapeJSONPointer "a/b~c" = "a~1b~0c" :=
  ⟨unescape_escape s, by decide⟩

/-- C9: every decision the core produces keeps the invariant — Allowed
false means no patch, and an attached patch comes with Allowed true and
the JSONPatch patch type; the error-path responses carry no patch. -/
theorem C9_decision_invariant (req : AdmissionRequest)
    (fetched : Except String Labels) (msg : String) :
    ((mutate req fetched).allowed = false → (mutate req fetched).patch = none) ∧
    ((mutate req fetched).patch ≠ none →
      (mutate req fetched).allowed = true ∧
      (mutate req fetched).patchType = some "JSONPatch") ∧
    (errorResponse msg).allowed = false ∧ (errorResponse msg).patch = none := by
  obtain ⟨uid, kind, podParse⟩ := req
  refine ⟨?_, ?_, rfl, rfl⟩ <;>
  · by_cases hk : kind = "Pod"
    · subst hk
      cases podParse with
      | error e => simp [mutate]
      | ok pod =>
          by_cases hm : shouldMutate pod.labels = false
          · simp [mutate, hm]
          · cases fetched with
            | error e => simp [mutate, hm]
            | ok ls => simp [mutate, hm]
    · simp [mutate, hk]

/-- C9 witness at a concrete input whose decision attaches a patch. -/
theorem C9_decision_invariant_w :
    (mutate { uid := "u", kind := "Pod",
              podParse := Except.ok { labels := some [("rollouts-pod-template-hash", "h")] } }
        (Except.ok [("team", "microservices")])).allowed = true ∧
    (mutate { uid := "u", kind := "Pod",
              podParse := Except.ok { labels := some [("rollouts-pod-template-hash", "h")] } }
        (Except.ok [("team", "microservices")])).patchType = some "JSONPatch" :=
  (C9_decision_invariant
    { uid := "u", kind := "Pod",
      podParse := Except.ok { labels := some [("rollouts-pod-template-hash", "h")] } }
    (Except.ok [("team", "microservices")]) "m").2.1 (by decide)

/-- C10: an unparsable non-empty body is denied with exactly
`Could not unmarshal AdmissionReview` and no patch; an unparsable Pod and
a label-source failure are denied with messages naming the underlying
error; and each of these paths writes a reply — none panics. -/
theorem C10_error_paths (uidRec : Option String) (uid e : String) (pod : Pod)
    (fetched : Except String Labels) (hm : shouldMutate pod.labels = true) :
    serveMutate (Body.malformed uidRec) fetched =
      writeAdmissionError 400 "Could not unmarshal AdmissionReview" ∧
    errorResponse "Could not unmarshal AdmissionReview" =
      { allowed := false, message := some "Could not unmarshal AdmissionReview" } ∧
    mutate { uid := uid, kind := "Pod", podParse := Except.error e } fetched =
      { allowed := false, message := some ("Could not unmarshal Pod: " ++ e) } ∧
    mutate { uid := uid, kind := "Pod", podParse := Except.ok pod } (Except.error e) =
      { allowed := false, message := some ("Error retrieving labels from API: " ++ e) } ∧
    serveMutate (Body.malformed uidRec) fetched ≠ ServeOutcome.panicked ∧
    serveMutate (Body.parsed (some { uid := uid, kind := "Pod", podParse := Except.error e }))
        fetched ≠ ServeOutcome.panicked ∧
    serveMutate (Body.parsed (some { uid := uid, kind := "Pod", podParse := Except.ok pod }))
        (Except.error e) ≠ ServeOutcome.panicked := by
  refine ⟨rfl, rfl, ?_, ?_, ?_, ?_, ?_⟩
  · simp [mutate]
  · simp [mutate, hm]
  · simp [serveMutate, writeAdmissionError]
  · simp [serveMutate]
  · simp [serveMutate]

/-- C10 witness at a concrete input: a marked Pod and a failing label
source. -/
theorem C10_error_paths_w :
    mutate { uid := "u", kind := "Pod",
             podParse := Except.ok { labels := some [("rollouts-pod-template-hash", "h")] } }
        (Except.error "boom") =
      { allowed := false, message := some ("Error retrieving labels from API: " ++ "boom") } :=
  (C10_error_paths none "u" "boom"
    { labels := some [("rollouts-pod-template-hash", "h")] }
    (Except.ok []) (by decide)).2.2.2.1

end Webhook
